import Mathlib

/-!
Shallow embedding of the document compression / page organization core of the
`img_pdf_vid_compress` repository, together with proofs settling the frozen
claims about its specification.

Embedded source files:
* `src/utils/pdf-organizer.ts`           (namespace `Org`)
* `src/utils/test-compression.ts`        (namespace `Compressor.TC`)
* `src/utils/enhanced-pdf-compression.ts` (namespace `Compressor.EPC`)

JavaScript semantics that matter here and how they are modelled:
* JS `%` on numbers truncates toward zero, so the remainder keeps the sign of
  the dividend; it is modelled by `Int.tmod`.
* A JS array slot can hold `undefined`; array slots are modelled as
  `Option PDFPageInfo` with `none` standing for `undefined`.
* `Array.prototype.findIndex` returns `-1` when no element matches; reading
  `arr[i]` for `i` outside `[0, length)` yields `undefined`; assigning to a
  negative index stores a plain object property and leaves the array's
  elements untouched.  Property reads such as `p.id` on `undefined` throw a
  `TypeError`; that is modelled with `Except Unit`.
* The pdf-lib library is an external collaborator (spec section 4.1); its
  `load` / `save` / `embedFont` operations are modelled as an explicit
  environment of deterministic functions, and `Date` is modelled by a clock
  value carried in the same environment.
-/

namespace ImgPdfVid

namespace Org

/-- `PDFPageInfo` from src/utils/pdf-organizer.ts (thumbnail omitted: it is
presentation data never read by the operations under verification). -/
structure PDFPageInfo where
  id : Int
  pageNumber : Int
  rotation : Int
  visible : Bool
deriving DecidableEq, Repr

/-- A slot of the organizer's `pages` JS array; `none` is `undefined`. -/
abbrev JSItem := Option PDFPageInfo

/-- The organizer session state: the `pages` array. -/
abbrev Session := List JSItem

inductive RotDir where
  | left
  | right
deriving DecidableEq, Repr

inductive MoveDir where
  | up
  | down
deriving DecidableEq, Repr

/-- State of `this.pages` right after `loadPDF` of an `n`-page document:
ids `0..n-1`, page numbers `i+1`, rotation `0`, all visible. -/
def loadState (n : Nat) : Session :=
  (List.range n).map (fun i => some ⟨i, i + 1, 0, true⟩)

/-- The rotation update of `rotatePage` (line 51):
`(page.rotation + (direction === 'left' ? -90 : 90)) % 360` with JS `%`. -/
def rotStep (r : Int) (d : RotDir) : Int :=
  Int.tmod (r + (if d = RotDir.left then -90 else 90)) 360

/-- `rotatePage`: `this.pages.find(p => p.id === pageId)` and, when found,
in-place update of the first matching record.  Walking past an `undefined`
slot would throw a `TypeError` inside the `find` callback. -/
def rotatePage : Session → Int → RotDir → Except Unit Session
  | [], _, _ => .ok []
  | none :: _, _, _ => .error ()
  | some p :: rest, pid, d =>
      if p.id = pid then
        .ok (some { p with rotation := rotStep p.rotation d } :: rest)
      else
        (rotatePage rest pid d).map (fun r => some p :: r)

/-- `togglePageVisibility`: flips `visible` on the first matching record. -/
def togglePageVisibility : Session → Int → Except Unit Session
  | [], _ => .ok []
  | none :: _, _ => .error ()
  | some p :: rest, pid =>
      if p.id = pid then
        .ok (some { p with visible := !p.visible } :: rest)
      else
        (togglePageVisibility rest pid).map (fun r => some p :: r)

/-- `deletePage`: `this.pages = this.pages.filter(page => page.id !== pageId)`. -/
def deletePage : Session → Int → Except Unit Session
  | [], _ => .ok []
  | none :: _, _ => .error ()
  | some p :: rest, pid =>
      (deletePage rest pid).map (fun r => if p.id = pid then r else some p :: r)

/-- `this.pages.findIndex(page => page.id === pageId)`: index of the first
match, `-1` when absent. -/
def findIndexById : Session → Int → Except Unit Int
  | [], _ => .ok (-1)
  | none :: _, _ => .error ()
  | some p :: rest, pid =>
      if p.id = pid then .ok 0
      else (findIndexById rest pid).map (fun i => if i = -1 then -1 else i + 1)

/-- JS array read `pages[i]`: `undefined` outside `[0, length)`, otherwise the
slot's content (which can itself be `undefined`). -/
def jsRead (ps : Session) (i : Int) : JSItem :=
  if i < 0 then none else (ps.get? i.toNat).join

/-- JS array write `pages[i] = v`.  A negative index stores a non-element
property and leaves the elements unchanged; indices beyond the length are
unreachable in `movePage` (both guarded writes stay below `length`). -/
def jsWrite (ps : Session) (i : Int) (v : JSItem) : Session :=
  if i < 0 then ps else ps.set i.toNat v

/-- `movePage` (lines 55-65).  The destructuring swap
`[pages[ci], pages[ci±1]] = [pages[ci±1], pages[ci]]` evaluates the right-hand
side first and then assigns left to right. -/
def movePage (ps : Session) (pid : Int) (d : MoveDir) : Except Unit Session :=
  match findIndexById ps pid with
  | .error e => .error e
  | .ok ci =>
      if d = MoveDir.up ∧ ci > 0 then
        let a := jsRead ps (ci - 1)
        let b := jsRead ps ci
        .ok (jsWrite (jsWrite ps ci a) (ci - 1) b)
      else if d = MoveDir.down ∧ ci < (ps.length : Int) - 1 then
        let a := jsRead ps (ci + 1)
        let b := jsRead ps ci
        .ok (jsWrite (jsWrite ps ci a) (ci + 1) b)
      else
        .ok ps

/-- A page of the export document built by `exportPDF`: the copied source page
and the rotation tag applied on it (`setRotation` is called only when the
tracked rotation is non-zero). -/
structure ExportedPage where
  srcId : Int
  rotationOverride : Option Int
deriving DecidableEq, Repr

/-- The export translation of one visible page record. -/
def exportOf : JSItem → Option ExportedPage
  | none => none
  | some p =>
      if p.visible then
        some ⟨p.id, if p.rotation ≠ 0 then some p.rotation else none⟩
      else
        none

/-- The page-copying loop of `exportPDF` (lines 88-99): visible pages, in the
current `pages` order.  Reading `.visible` on an `undefined` slot throws. -/
def exportPages : Session → Except Unit (List ExportedPage)
  | [] => .ok []
  | none :: _ => .error ()
  | some p :: rest =>
      (exportPages rest).map (fun r =>
        if p.visible then
          ⟨p.id, if p.rotation ≠ 0 then some p.rotation else none⟩ :: r
        else r)

/-- `exportPDF` (lines 78-107): fails with `'No PDF loaded'` when no document
is loaded; any error thrown inside the body is caught and rethrown as
`'Failed to export PDF'`.  There is no empty-document check: with zero visible
pages the loop copies nothing and the new document is serialized as is. -/
def exportPDF (loaded : Bool) (ps : Session) : Except String (List ExportedPage) :=
  if !loaded then .error "No PDF loaded"
  else
    match exportPages ps with
    | .ok gs => .ok gs
    | .error _ => .error "Failed to export PDF"

/-- Well-formedness of a session: no slot is `undefined`.  This holds for
every state produced by `loadPDF` and preserved by the intended operations. -/
def AllSome (ps : Session) : Prop := ∀ x ∈ ps, x ≠ none

instance : DecidablePred AllSome := fun ps =>
  inferInstanceAs (Decidable (∀ x ∈ ps, x ≠ none))

/-- `pid` matches no record of the session. -/
def IdAbsent (ps : Session) (pid : Int) : Prop :=
  ∀ x ∈ ps, ∀ p, x = some p → p.id ≠ pid

instance (pid : Int) : ∀ x : JSItem, Decidable (∀ p, x = some p → p.id ≠ pid)
  | none => isTrue (by simp)
  | some q => decidable_of_iff (q.id ≠ pid) (by simp)

instance (ps : Session) (pid : Int) : Decidable (IdAbsent ps pid) :=
  inferInstanceAs (Decidable (∀ x ∈ ps, ∀ p, x = some p → p.id ≠ pid))

/-- Rotation of the first record matching `pid` (observer used in theorems). -/
def getRot : Session → Int → Option Int
  | [], _ => none
  | none :: rest, pid => getRot rest pid
  | some p :: rest, pid => if p.id = pid then some p.rotation else getRot rest pid

/-- Iterated `rotatePage` calls on one page. -/
def applyRots : Session → Int → List RotDir → Except Unit Session
  | ps, _, [] => .ok ps
  | ps, pid, d :: ds =>
      match rotatePage ps pid d with
      | .ok ps' => applyRots ps' pid ds
      | .error e => .error e

/-- The ids of the session's records, in order. -/
def idsOf (ps : Session) : List Int :=
  ps.filterMap (fun x => Option.map PDFPageInfo.id x)

/-- Number of visible pages of the session. -/
def visibleCount (ps : Session) : Nat :=
  ps.countP (fun x => match x with | some p => p.visible | none => false)

/-- The seven rotation values reachable from 0 under `rotStep`. -/
def rotSet : List Int := [-270, -180, -90, 0, 90, 180, 270]

/-- Result of four consecutive `right` rotations on a rotation value. -/
def fourRight (r : Int) : Int :=
  rotStep (rotStep (rotStep (rotStep r RotDir.right) RotDir.right) RotDir.right) RotDir.right

end Org

namespace Compressor

/-- Serialized document bytes (a JS `Uint8Array` / `Blob` content). -/
abbrev Bytes := List Nat

/-- The metadata dictionary of a loaded document, as read and written through
pdf-lib's `getTitle`/`setTitle`, ..., accessors.  `none` models an absent
field. -/
structure PdfMeta where
  title : Option String := none
  author : Option String := none
  subject : Option String := none
  keywords : Option (List String) := none
  creator : Option String := none
  producer : Option String := none
  creationDate : Option Int := none
  modificationDate : Option Int := none
deriving DecidableEq, Repr

/-- An in-memory `PDFDocument`: the page objects (abstract tokens preserved by
`copyPages`), the metadata dictionary, and the number of AcroForm fields
(what `getForm().getFields().length` observes). -/
structure PdfDoc where
  pages : List Nat
  meta : PdfMeta
  formFieldCount : Nat
deriving DecidableEq, Repr

/-- pdf-lib `save` options used by the compressors. -/
structure SaveOpts where
  useObjectStreams : Bool
  addDefaultPage : Bool
  objectsPerTick : Nat
deriving DecidableEq, Repr

/-- pdf-lib `load` options (defaults are pdf-lib's own defaults). -/
structure LoadOpts where
  ignoreEncryption : Bool := false
  updateMetadata : Bool := true
deriving DecidableEq, Repr

/-- A thrown JS error, identified by its message (the only part the
compressor's catch blocks inspect). -/
structure JsErr where
  msg : String
deriving DecidableEq, Repr

/-- The external pdf-lib collaborator plus the wall clock, modelled as a
deterministic environment (spec section 4.1: `serialize` is a pure function
of its inputs).  `fmtMB` models JS `Number.prototype.toFixed(1)` for the
megabyte figure interpolated into one log string. -/
structure PdfLibEnv where
  load : Bytes → LoadOpts → Except JsErr PdfDoc
  save : PdfDoc → SaveOpts → Except JsErr Bytes
  embedFontHelvetica : PdfDoc → Except JsErr PdfDoc
  now : Int
  fmtMB : ℚ → String

/-- The document produced by `PDFDocument.create()`: no pages, no form
fields, pdf-lib's default producer/creator stamps and creation/modification
dates set to the current time. -/
def createDoc (now : Int) : PdfDoc :=
  { pages := []
    meta :=
      { producer := some "pdf-lib (https://github.com/Hopding/pdf-lib)"
        creator := some "pdf-lib (https://github.com/Hopding/pdf-lib)"
        creationDate := some now
        modificationDate := some now }
    formFieldCount := 0 }

/-- `PDFDocument.create()` followed by the copy loop
`copyPages(pdfDoc, [i]); addPage(copiedPage)` over every page of `doc`. -/
def recreateDoc (now : Int) (doc : PdfDoc) : PdfDoc :=
  { createDoc now with pages := doc.pages }

/-- JS truthiness of an optional boolean option. -/
def Truthy : Option Bool → Bool
  | some b => b
  | none => false

/-- JS truthiness of an optional string (the empty string is falsy). -/
def jsTruthyStr : Option String → Bool
  | none => false
  | some s => !(s = "")

/-- `haystack.replace(pat, repl)` on JS strings: replaces the first
occurrence only. -/
def replaceFirstAux : List Char → List Char → List Char → List Char
  | [], _, _ => []
  | c :: rest, pat, repl =>
      if pat.isPrefixOf (c :: rest) then repl ++ (c :: rest).drop pat.length
      else c :: replaceFirstAux rest pat repl

/-- JS `String.prototype.replace` with a string pattern. -/
def jsReplace (s pat repl : String) : String :=
  ⟨replaceFirstAux s.data pat.data repl.data⟩

/-- JS `String.prototype.includes`. -/
def containsSub (s sub : String) : Bool :=
  decide (List.IsInfix sub.data s.data)

/-- The `quality` option values. -/
inductive Quality where
  | screen
  | ebook
  | printer
  | prepress
deriving DecidableEq, Repr

/-- The JS string of a quality value. -/
def Quality.str : Quality → String
  | .screen => "screen"
  | .ebook => "ebook"
  | .printer => "printer"
  | .prepress => "prepress"

/-- `PDFCompressionOptions`; every field is optional in the TS interface. -/
structure PDFCompressionOptions where
  quality : Option Quality := none
  removeMetadata : Option Bool := none
  optimizeImages : Option Bool := none
  compressFonts : Option Bool := none
  removeUnusedObjects : Option Bool := none
deriving DecidableEq, Repr

/-- An input `File`: name, declared media type, and content bytes
(`file.size` is the byte count). -/
structure FileModel where
  name : String
  ftype : String
  bytes : Bytes
deriving DecidableEq, Repr

/-- `file.size`. -/
def fileSizeOf (file : FileModel) : Nat := file.bytes.length

/-- `PDFCompressionResult`.  `compressionRatio` is computed in JS floating
point; it is modelled with exact rationals, which agrees on the values the
claims mention (`0` and size comparisons). -/
structure PDFCompressionResult where
  originalSize : Nat
  compressedSize : Nat
  compressionRatio : ℚ
  compressedBlob : Bytes
  fileName : String
  quality : String
  optimizations : List String
deriving DecidableEq, Repr

/-- The load options passed by `compressPDF`:
`{ ignoreEncryption: false, updateMetadata: false }`. -/
def loadOptsCompress : LoadOpts := { ignoreEncryption := false, updateMetadata := false }

/-- The cleared metadata written by the sanitizer: all six identifying fields
set to empty values and both timestamps set to `new Date()` — the current
time, supplied by the clock of the environment. -/
def clearMetadata (now : Int) (_m : PdfMeta) : PdfMeta :=
  { title := some ""
    author := some ""
    subject := some ""
    keywords := some []
    creator := some ""
    producer := some ""
    creationDate := some now
    modificationDate := some now }

/-- `optimizeImages` (identical in both files): counts pages whose `node` is
truthy — every page — and logs the count when positive. -/
def optimizeImagesFn (doc : PdfDoc) : List String :=
  if doc.pages.length > 0 then
    [toString doc.pages.length ++ " images detected for optimization"]
  else []

/-- `removeUnusedObjects` (identical in both files): always returns `false`. -/
def removeUnusedObjectsFn (_doc : PdfDoc) : Bool := false

/-- `optimizeFonts` (identical in both files): logs the form-field count when
positive. -/
def optimizeFontsFn (doc : PdfDoc) : List String :=
  if doc.formFieldCount > 0 then
    [toString doc.formFieldCount ++ " form fields detected"]
  else []

/-- `optimizePages` (identical in both files): informational log lines. -/
def optimizePagesFn (env : PdfLibEnv) (pageCount : Nat) (fileSizeMB : ℚ) : List String :=
  [toString pageCount ++ " pages processed", env.fmtMB fileSizeMB ++ " MB input file"]
    ++ (if pageCount > 50 then ["Large page count - aggressive compression recommended"] else [])
    ++ (if fileSizeMB > 20 then ["Large file size - multiple compression passes recommended"] else [])

namespace TC

/-- `getCompressionOptions` of src/utils/test-compression.ts (lines
630-669). -/
def getCompressionOptions (quality : Quality) : SaveOpts :=
  { useObjectStreams := true
    addDefaultPage := false
    objectsPerTick :=
      match quality with
      | .screen => 1
      | .ebook => 5
      | .printer => 10
      | .prepress => 20 }

/-- Result record of `analyzePDFContent`. -/
structure ContentAnalysis where
  hasImages : Bool
  hasComplexGraphics : Bool
  hasEmbeddedFonts : Bool
  hasMetadata : Bool
  pageCount : Nat
  recommendedStrategy : String
deriving DecidableEq, Repr

/-- `analyzePDFContent` (lines 559-628).  `hasMetadata` is
`!!(title || author)` with JS truthiness; `hasEmbeddedFonts` observes the
form fields; the page loop sets `hasImages`/`hasComplexGraphics` whenever a
page's `node` is truthy, which holds for every page, so both flags equal
`pageCount > 0`.  The strategy is picked by the fixed precedence chain of
lines 607-618. -/
def analyzePDFContent (doc : PdfDoc) : ContentAnalysis :=
  let pageCount := doc.pages.length
  let hasMetadata := jsTruthyStr doc.meta.title || jsTruthyStr doc.meta.author
  let hasEmbeddedFonts := decide (doc.formFieldCount > 0)
  let hasImages := decide (pageCount > 0)
  let hasComplexGraphics := decide (pageCount > 0)
  { hasImages := hasImages
    hasComplexGraphics := hasComplexGraphics
    hasEmbeddedFonts := hasEmbeddedFonts
    hasMetadata := hasMetadata
    pageCount := pageCount
    recommendedStrategy :=
      if hasImages && hasComplexGraphics then "image_optimization"
      else if hasEmbeddedFonts then "font_optimization"
      else if hasMetadata then "metadata_removal"
      else if pageCount > 10 then "multi_pass"
      else "ultra_aggressive" }

/-- `applyOptimizations` of src/utils/test-compression.ts (lines 387-475).
Metadata is cleared when `removeMetadata` is truthy or quality is `screen`;
for `screen` two fixed "aggressive" log lines replace the standard sub-steps;
`removeUnusedObjects`/`compressFonts` default to enabled (`!== false`).
Every sub-step is wrapped in try/catch in the source; in this model all
sub-steps are total, so the function never fails. -/
def applyOptimizations (env : PdfLibEnv) (doc : PdfDoc) (options : PDFCompressionOptions)
    (fileSizeMB : ℚ) (pageCount : Nat) : PdfDoc × List String :=
  let step1 : PdfDoc × List String :=
    if Truthy options.removeMetadata || options.quality = some Quality.screen then
      ({ doc with meta := clearMetadata env.now doc.meta }, ["Metadata removed"])
    else (doc, [])
  let doc1 := step1.1
  let opt2 : List String :=
    if options.quality = some Quality.screen then
      ["Aggressive font optimization applied", "Aggressive image optimization applied"]
    else
      (if Truthy options.optimizeImages then optimizeImagesFn doc1 else [])
        ++ (if options.removeUnusedObjects ≠ some false then
              (if removeUnusedObjectsFn doc1 then ["Unused objects removed"] else [])
            else [])
        ++ (if options.compressFonts ≠ some false then optimizeFontsFn doc1 else [])
  (doc1, step1.2 ++ opt2 ++ optimizePagesFn env pageCount fileSizeMB)

/-- The save options used by every ultra-aggressive strategy:
`{ objectsPerTick: 1, useObjectStreams: true, addDefaultPage: false }`. -/
def ultraOpts : SaveOpts :=
  { useObjectStreams := true, addDefaultPage := false, objectsPerTick := 1 }

/-- Whether a candidate size beats the current best (`bestSize` starts at
`Infinity`, modelled by `none`). -/
def ltBest (n : Nat) : Option Bytes → Bool
  | none => true
  | some b => n < b.length

/-- The repeated pattern of `applyUltraAggressiveCompression`: a strategy's
try block produced `cand`; when it succeeded and beats the best so far the
candidate is kept and the strategy's log line pushed, otherwise (including
when the strategy threw) the state is unchanged. -/
def consider (st : Option Bytes × List String) (cand : Except JsErr Bytes)
    (line : String) : Option Bytes × List String :=
  match cand with
  | .error _ => st
  | .ok b => if ltBest b.length st.1 then (some b, st.2 ++ [line]) else st

/-- Same as `consider` for a strategy that may also produce no candidate
without throwing. -/
def considerOpt (st : Option Bytes × List String) (cand : Option Bytes)
    (line : String) : Option Bytes × List String :=
  match cand with
  | none => st
  | some b => if ltBest b.length st.1 then (some b, st.2 ++ [line]) else st

/-- Strategy 2 (lines 276-307): first compression pass on the original
document; when its size beats the best so far, reload it (with pdf-lib's
default load options) and save again.  Only the second pass is offered as a
candidate. -/
def strategy2 (env : PdfLibEnv) (pdfDoc : PdfDoc) (best : Option Bytes) :
    Except JsErr (Option Bytes) :=
  match env.save pdfDoc ultraOpts with
  | .error e => .error e
  | .ok firstPassBytes =>
      if ltBest firstPassBytes.length best then
        match env.load firstPassBytes {} with
        | .error e => .error e
        | .ok secondPassDoc =>
            match env.save secondPassDoc ultraOpts with
            | .error e => .error e
            | .ok secondPassBytes => .ok (some secondPassBytes)
      else .ok none

/-- Strategy 4's document (lines 339-371): re-created document with a
best-effort `embedFont('Helvetica')`; an embedding failure is swallowed. -/
def strategy4Doc (env : PdfLibEnv) (pdfDoc : PdfDoc) : PdfDoc :=
  match env.embedFontHelvetica (recreateDoc env.now pdfDoc) with
  | .ok d => d
  | .error _ => recreateDoc env.now pdfDoc

/-- The candidate a fallible strategy run offers for comparison: none when it
threw (the catch block skips it) or produced no candidate. -/
def offerOf (r : Except JsErr (Option Bytes)) : Option Bytes :=
  match r with
  | .ok (some b) => some b
  | _ => none

/-- The candidate offered by strategy 2 as a function of the environment
(its gate compares against the best after strategy 1, which is exactly
strategy 1's own candidate). -/
def strategy2Offer (env : PdfLibEnv) (pdfDoc : PdfDoc) : Option Bytes :=
  offerOf (strategy2 env pdfDoc (env.save (recreateDoc env.now pdfDoc) ultraOpts).toOption)

/-- The candidates offered for comparison by the four strategies, in
strategy order; `none` marks a strategy that produced no candidate.
Strategy 3 runs exactly the code of strategy 1 (copy all pages into a fresh
document, same save options), so it offers the same bytes. -/
def ultraOffers (env : PdfLibEnv) (pdfDoc : PdfDoc) : List (Option Bytes) :=
  [(env.save (recreateDoc env.now pdfDoc) ultraOpts).toOption,
   strategy2Offer env pdfDoc,
   (env.save (recreateDoc env.now pdfDoc) ultraOpts).toOption,
   (env.save (strategy4Doc env pdfDoc) ultraOpts).toOption]

/-- The successfully produced candidates, in strategy order. -/
def ultraCandidates (env : PdfLibEnv) (pdfDoc : PdfDoc) : List Bytes :=
  (ultraOffers env pdfDoc).reduceOption

/-- The best/log state after the four strategy blocks of
`applyUltraAggressiveCompression` (lines 243-371). -/
def ultraState (env : PdfLibEnv) (pdfDoc : PdfDoc) (optimizations : List String) :
    Option Bytes × List String :=
  let s1 := consider (none, optimizations)
    (env.save (recreateDoc env.now pdfDoc) ultraOpts)
    "Document re-creation with ultra-aggressive settings"
  let s2 := considerOpt s1
    (offerOf (strategy2 env pdfDoc s1.1))
    "Multi-pass compression with reload"
  let s3 := consider s2
    (env.save (recreateDoc env.now pdfDoc) ultraOpts)
    "Content-aware compression applied"
  consider s3
    (env.save (strategy4Doc env pdfDoc) ultraOpts)
    "Font optimization applied"

/-- `applyUltraAggressiveCompression` (lines 239-385): run the four strategy
blocks and return the best candidate with the accumulated log; when every
strategy failed, fall back to a basic save of the input document (an error of
that final save propagates to the caller's catch). -/
def applyUltraAggressiveCompression (env : PdfLibEnv) (pdfDoc : PdfDoc)
    (optimizations : List String) : Except JsErr (Bytes × List String) :=
  match ultraState env pdfDoc optimizations with
  | (some bestBlob, log) => .ok (bestBlob, log)
  | (none, log) =>
      match env.save pdfDoc ultraOpts with
      | .ok fallbackBytes => .ok (fallbackBytes, log ++ ["Fallback compression applied"])
      | .error e => .error e

/-- The body of `compressPDF`'s try block up to the final candidate blob
(lines 146-178): load, analyze, optimize, then either the ultra-aggressive
runner (quality `screen`) or a single standard save. -/
def strategyPhase (env : PdfLibEnv) (file : FileModel) (options : PDFCompressionOptions) :
    Except JsErr (Bytes × List String) :=
  match env.load file.bytes loadOptsCompress with
  | .error e => .error e
  | .ok pdfDoc =>
      let pageCount := pdfDoc.pages.length
      let fileSizeMB : ℚ := mkRat (fileSizeOf file) (1024 * 1024)
      let contentAnalysis := analyzePDFContent pdfDoc
      let step := applyOptimizations env pdfDoc options fileSizeMB pageCount
      let optimizations := step.2 ++
        ["Content analysis: " ++ contentAnalysis.recommendedStrategy ++ " strategy recommended"]
      if options.quality = some Quality.screen then
        applyUltraAggressiveCompression env step.1 optimizations
      else
        match env.save step.1 (getCompressionOptions ((options.quality).getD Quality.screen)) with
        | .error e => .error e
        | .ok compressedBytes => .ok (compressedBytes, optimizations)

/-- `options.quality || 'screen'` as a result string. -/
def qualityStr (options : PDFCompressionOptions) : String :=
  ((options.quality).getD Quality.screen).str

/-- The result built by the safety gate when the candidate did not shrink the
file (lines 184-195): original bytes, zero ratio, and the fixed log entry. -/
def gateResult (file : FileModel) (options : PDFCompressionOptions) : PDFCompressionResult :=
  { originalSize := fileSizeOf file
    compressedSize := fileSizeOf file
    compressionRatio := 0
    compressedBlob := file.bytes
    fileName := jsReplace file.name ".pdf" "_compressed.pdf"
    quality := qualityStr options
    optimizations := ["No compression applied - file size increased"] }

/-- The result built by the catch-all fallback (lines 220-231): the original
file re-read and returned as a successful result. -/
def fallbackResult (file : FileModel) (options : PDFCompressionOptions) : PDFCompressionResult :=
  { originalSize := fileSizeOf file
    compressedSize := fileSizeOf file
    compressionRatio := 0
    compressedBlob := file.bytes
    fileName := jsReplace file.name ".pdf" "_compressed.pdf"
    quality := qualityStr options
    optimizations := ["Compression failed - original file returned"] }

/-- The try block of `compressPDF`: strategy phase, ratio computation, and the
safety gate comparing the candidate against the input size. -/
def compressPDFTry (env : PdfLibEnv) (file : FileModel) (options : PDFCompressionOptions) :
    Except JsErr PDFCompressionResult :=
  match strategyPhase env file options with
  | .error e => .error e
  | .ok (finalBlob, optimizations) =>
      let compressionRatio : ℚ :=
        mkRat ((fileSizeOf file : Int) - (finalBlob.length : Int)) (fileSizeOf file) * 100
      if finalBlob.length ≥ fileSizeOf file then
        .ok (gateResult file options)
      else
        .ok { originalSize := fileSizeOf file
              compressedSize := finalBlob.length
              compressionRatio := compressionRatio
              compressedBlob := finalBlob
              fileName := jsReplace file.name ".pdf" "_compressed.pdf"
              quality := qualityStr options
              optimizations := optimizations }

/-- `compressPDF` of src/utils/test-compression.ts (lines 129-237): input
validation, the try block, and the catch block that turns load errors into
the two user-facing hard failures (by message inspection) or degrades to the
original file. -/
def compressPDF (env : PdfLibEnv) (file : FileModel) (options : PDFCompressionOptions) :
    Except JsErr PDFCompressionResult :=
  if fileSizeOf file = 0 then
    .error ⟨"Invalid PDF file: File is empty or undefined"⟩
  else if file.ftype ≠ "application/pdf" then
    .error ⟨"Invalid file type: Only PDF files are supported"⟩
  else if fileSizeOf file > 100 * 1024 * 1024 then
    .error ⟨"File too large: Maximum file size is 100MB"⟩
  else
    match compressPDFTry env file options with
    | .ok result => .ok result
    | .error e =>
        if containsSub e.msg "Invalid PDF" then
          .error ⟨"The file appears to be corrupted or not a valid PDF"⟩
        else if containsSub e.msg "password" then
          .error ⟨"Password-protected PDFs are not supported"⟩
        else
          .ok (fallbackResult file options)

end TC

namespace EPC

/-- `getCompressionOptions` of src/utils/enhanced-pdf-compression.ts
(lines 278-317). -/
def getCompressionOptions (quality : Quality) : SaveOpts :=
  { useObjectStreams := true
    addDefaultPage := false
    objectsPerTick :=
      match quality with
      | .screen => 5
      | .ebook => 10
      | .printer => 15
      | .prepress => 20 }

/-- `applyOptimizations` of src/utils/enhanced-pdf-compression.ts (lines
123-194): metadata is cleared only when `removeMetadata` is truthy — the
quality tier plays no role here — followed by the standard sub-steps. -/
def applyOptimizations (env : PdfLibEnv) (doc : PdfDoc) (options : PDFCompressionOptions)
    (fileSizeMB : ℚ) (pageCount : Nat) : PdfDoc × List String :=
  let step1 : PdfDoc × List String :=
    if Truthy options.removeMetadata then
      ({ doc with meta := clearMetadata env.now doc.meta }, ["Metadata removed"])
    else (doc, [])
  let doc1 := step1.1
  let opt2 := if Truthy options.optimizeImages then optimizeImagesFn doc1 else []
  let opt3 :=
    if options.removeUnusedObjects ≠ some false then
      (if removeUnusedObjectsFn doc1 then ["Unused objects removed"] else [])
    else []
  let opt4 := if options.compressFonts ≠ some false then optimizeFontsFn doc1 else []
  (doc1, step1.2 ++ opt2 ++ opt3 ++ opt4 ++ optimizePagesFn env pageCount fileSizeMB)

/-- The try block of `compressPDF` of enhanced-pdf-compression.ts up to the
candidate blob (lines 40-62): no content analysis, no ultra-aggressive path,
quality defaulting to `ebook`. -/
def strategyPhase (env : PdfLibEnv) (file : FileModel) (options : PDFCompressionOptions) :
    Except JsErr (Bytes × List String) :=
  match env.load file.bytes loadOptsCompress with
  | .error e => .error e
  | .ok pdfDoc =>
      let pageCount := pdfDoc.pages.length
      let fileSizeMB : ℚ := mkRat (fileSizeOf file) (1024 * 1024)
      let step := applyOptimizations env pdfDoc options fileSizeMB pageCount
      match env.save step.1 (getCompressionOptions ((options.quality).getD Quality.ebook)) with
      | .error e => .error e
      | .ok compressedBytes => .ok (compressedBytes, step.2)

/-- `options.quality || 'ebook'` as a result string. -/
def qualityStr (options : PDFCompressionOptions) : String :=
  ((options.quality).getD Quality.ebook).str

/-- The safety-gate result of enhanced-pdf-compression.ts (lines 68-79). -/
def gateResult (file : FileModel) (options : PDFCompressionOptions) : PDFCompressionResult :=
  { originalSize := fileSizeOf file
    compressedSize := fileSizeOf file
    compressionRatio := 0
    compressedBlob := file.bytes
    fileName := jsReplace file.name ".pdf" "_compressed.pdf"
    quality := qualityStr options
    optimizations := ["No compression applied - file size increased"] }

/-- The catch-all fallback result (lines 104-115). -/
def fallbackResult (file : FileModel) (options : PDFCompressionOptions) : PDFCompressionResult :=
  { originalSize := fileSizeOf file
    compressedSize := fileSizeOf file
    compressionRatio := 0
    compressedBlob := file.bytes
    fileName := jsReplace file.name ".pdf" "_compressed.pdf"
    quality := qualityStr options
    optimizations := ["Compression failed - original file returned"] }

/-- The try block of `compressPDF` with the safety gate (lines 61-89). -/
def compressPDFTry (env : PdfLibEnv) (file : FileModel) (options : PDFCompressionOptions) :
    Except JsErr PDFCompressionResult :=
  match strategyPhase env file options with
  | .error e => .error e
  | .ok (compressedBlob, optimizations) =>
      let compressionRatio : ℚ :=
        mkRat ((fileSizeOf file : Int) - (compressedBlob.length : Int)) (fileSizeOf file) * 100
      if compressedBlob.length ≥ fileSizeOf file then
        .ok (gateResult file options)
      else
        .ok { originalSize := fileSizeOf file
              compressedSize := compressedBlob.length
              compressionRatio := compressionRatio
              compressedBlob := compressedBlob
              fileName := jsReplace file.name ".pdf" "_compressed.pdf"
              quality := qualityStr options
              optimizations := optimizations }

/-- `compressPDF` of src/utils/enhanced-pdf-compression.ts (lines 23-121). -/
def compressPDF (env : PdfLibEnv) (file : FileModel) (options : PDFCompressionOptions) :
    Except JsErr PDFCompressionResult :=
  if fileSizeOf file = 0 then
    .error ⟨"Invalid PDF file: File is empty or undefined"⟩
  else if file.ftype ≠ "application/pdf" then
    .error ⟨"Invalid file type: Only PDF files are supported"⟩
  else if fileSizeOf file > 100 * 1024 * 1024 then
    .error ⟨"File too large: Maximum file size is 100MB"⟩
  else
    match compressPDFTry env file options with
    | .ok result => .ok result
    | .error e =>
        if containsSub e.msg "Invalid PDF" then
          .error ⟨"The file appears to be corrupted or not a valid PDF"⟩
        else if containsSub e.msg "password" then
          .error ⟨"Password-protected PDFs are not supported"⟩
        else
          .ok (fallbackResult file options)

end EPC

/-- One step of the best-candidate selection: a new candidate replaces the
best only when strictly smaller (`<`), so ties keep the earlier candidate. -/
def pickStep : Option Bytes → Option Bytes → Option Bytes
  | best, none => best
  | none, some c => some c
  | some b, some c => if c.length < b.length then some c else some b

/-- Best candidate of a list of offers under `pickStep`. -/
def pickBest (offers : List (Option Bytes)) : Option Bytes :=
  offers.foldl pickStep none

end Compressor

/-! ### Theorems: page organizer -/

namespace Org

theorem allSome_cons {x : JSItem} {l : Session} :
    AllSome (x :: l) ↔ x ≠ none ∧ AllSome l :=
  List.forall_mem_cons

theorem rotatePage_ok (pid : Int) (d : RotDir) :
    ∀ ps : Session, AllSome ps →
      ∃ ps', rotatePage ps pid d = .ok ps' ∧ AllSome ps' ∧
        getRot ps' pid = (getRot ps pid).map (fun r => rotStep r d) := by
  intro ps
  induction ps with
  | nil => intro h; exact ⟨[], rfl, h, rfl⟩
  | cons x rest ih =>
      intro h
      rcases allSome_cons.mp h with ⟨hx, hrest⟩
      match x, hx with
      | some p, _ =>
        by_cases hp : p.id = pid
        · refine ⟨some { p with rotation := rotStep p.rotation d } :: rest, ?_, ?_, ?_⟩
          · simp [rotatePage, hp]
          · exact allSome_cons.mpr ⟨by simp, hrest⟩
          · simp [getRot, hp]
        · rcases ih hrest with ⟨rest', hrun, hall, hget⟩
          refine ⟨some p :: rest', ?_, ?_, ?_⟩
          · simp [rotatePage, hp, hrun, Except.map]
          · exact allSome_cons.mpr ⟨by simp, hall⟩
          · simp [getRot, hp, hget]

theorem applyRots_ok (pid : Int) :
    ∀ (dirs : List RotDir) (ps : Session) (r : Int), AllSome ps →
      getRot ps pid = some r →
      ∃ ps', applyRots ps pid dirs = .ok ps' ∧ AllSome ps' ∧
        getRot ps' pid = some (dirs.foldl rotStep r) := by
  intro dirs
  induction dirs with
  | nil => intro ps r h hr; exact ⟨ps, rfl, h, hr⟩
  | cons d ds ih =>
      intro ps r h hr
      rcases rotatePage_ok pid d ps h with ⟨ps', hrun, hall, hget⟩
      rcases ih ps' (rotStep r d) hall (by rw [hget, hr]; rfl) with ⟨ps'', hrun'', hall'', hget''⟩
      exact ⟨ps'', by simp [applyRots, hrun, hrun''], hall'', hget''⟩

theorem rotStep_mem_rotSet : ∀ r ∈ rotSet, ∀ d : RotDir, rotStep r d ∈ rotSet := by
  intro r hr d
  cases d <;> revert hr <;> revert r <;> decide

theorem foldl_rotStep_mem (dirs : List RotDir) :
    ∀ r ∈ rotSet, dirs.foldl rotStep r ∈ rotSet := by
  induction dirs with
  | nil => intro r hr; exact hr
  | cons d ds ih => intro r hr; exact ih _ (rotStep_mem_rotSet r hr d)

theorem fourRight_facts : ∀ r ∈ rotSet, (fourRight r - r) % 360 = 0 ∧ (0 ≤ r → fourRight r = r) := by
  decide

theorem getRot_zero_mem : (0 : Int) ∈ rotSet := by decide

/-- C3 counterexample: on a freshly loaded one-page session a single legal
`rotatePage(0, 'left')` call sets `rotationDegrees` to `-90`, which is not in
`{0, 90, 180, 270}` (the JS `%` keeps the sign of the dividend). -/
theorem rotatePage_left_escapes_canonical_set :
    rotatePage (loadState 1) 0 RotDir.left = .ok [some ⟨0, 1, -90, true⟩] ∧
      ¬ ((-90 : Int) ∈ ([0, 90, 180, 270] : List Int)) := by
  constructor
  · rfl
  · decide

/-- C3 (amended): starting from rotation 0, any sequence of `rotatePage` calls
keeps the page's rotation a multiple of 90 of absolute value below 360 (the
set `rotSet`, so always congruent to one of `{0,90,180,270}` modulo 360, but
possibly negative); four further `right` rotations yield a value congruent to
the current one modulo 360, and equal to it whenever the current value is
nonnegative (as after right-only histories). -/
theorem rotatePage_rotation_invariant (ps : Session) (pid : Int) (dirs : List RotDir)
    (hall : AllSome ps) (h0 : getRot ps pid = some 0) :
    ∃ ps', applyRots ps pid dirs = .ok ps' ∧
      ∃ r, getRot ps' pid = some r ∧ r ∈ rotSet ∧
        ∃ ps'', applyRots ps' pid [RotDir.right, RotDir.right, RotDir.right, RotDir.right] = .ok ps'' ∧
          getRot ps'' pid = some (fourRight r) ∧
          (fourRight r - r) % 360 = 0 ∧ (0 ≤ r → fourRight r = r) := by
  rcases applyRots_ok pid dirs ps 0 hall h0 with ⟨ps', hrun, hall', hget⟩
  set r := dirs.foldl rotStep 0 with hr
  have hmem : r ∈ rotSet := foldl_rotStep_mem dirs 0 getRot_zero_mem
  rcases applyRots_ok pid [RotDir.right, RotDir.right, RotDir.right, RotDir.right] ps' r hall' hget
    with ⟨ps'', hrun'', _, hget''⟩
  refine ⟨ps', hrun, r, hget, hmem, ps'', hrun'', ?_, (fourRight_facts r hmem).1,
    (fourRight_facts r hmem).2⟩
  · simpa [fourRight, List.foldl] using hget''

theorem exportPages_ok :
    ∀ ps : Session, AllSome ps → exportPages ps = .ok (ps.filterMap exportOf) := by
  intro ps
  induction ps with
  | nil => intro _; rfl
  | cons x rest ih =>
      intro h
      rcases allSome_cons.mp h with ⟨hx, hrest⟩
      match x, hx with
      | some p, _ =>
        by_cases hv : p.visible <;>
          simp [exportPages, ih hrest, Except.map, List.filterMap_cons, exportOf, hv]

theorem filterMap_exportOf_length :
    ∀ ps : Session, (ps.filterMap exportOf).length = visibleCount ps := by
  intro ps
  induction ps with
  | nil => rfl
  | cons x rest ih =>
      match x with
      | none => simpa [List.filterMap_cons, exportOf, visibleCount, List.countP_cons] using ih
      | some p =>
          by_cases hv : p.visible <;>
            simp [List.filterMap_cons, exportOf, hv, visibleCount, List.countP_cons, ih]

/-- C2 counterexample: exporting a session whose only page is hidden does not
fail at all — there is no `EmptyDocumentError` in the code; the copy loop
copies nothing and the zero-page export document is handed to the
serializer. -/
theorem exportPDF_zero_visible_succeeds :
    exportPDF true [some ⟨0, 1, 0, false⟩] = .ok [] := rfl

/-- C2 (amended): on a loaded well-formed session `exportPDF` never raises an
empty-document error; it succeeds with exactly the visible pages, in current
display order, so the exported page count equals the number of visible pages
(for zero visible pages the built document has zero copied pages and is
serialized as is — pdf-lib's serializer may then add a default blank page). -/
theorem exportPDF_visible_pages (ps : Session) (hall : AllSome ps) :
    exportPDF true ps = .ok (ps.filterMap exportOf) ∧
      (ps.filterMap exportOf).length = visibleCount ps := by
  refine ⟨?_, filterMap_exportOf_length ps⟩
  simp [exportPDF, exportPages_ok ps hall]

theorem exportPDF_visible_pages_witness :
    AllSome [some ⟨0, 1, 0, true⟩, some ⟨1, 2, 0, false⟩, some ⟨2, 3, 90, true⟩] ∧
      exportPDF true [some ⟨0, 1, 0, true⟩, some ⟨1, 2, 0, false⟩, some ⟨2, 3, 90, true⟩] =
        .ok [⟨0, none⟩, ⟨2, some 90⟩] ∧
      ([⟨(0 : Int), (none : Option Int)⟩, ⟨2, some 90⟩] : List ExportedPage).length = 2 := by
  have h := exportPDF_visible_pages
    [some ⟨0, 1, 0, true⟩, some ⟨1, 2, 0, false⟩, some ⟨2, 3, 90, true⟩] (by decide)
  exact ⟨by decide, h.1, rfl⟩

theorem mem_of_getLast?_sess {ps : Session} {x : JSItem} (h : ps.getLast? = some x) : x ∈ ps := by
  have hx : x ∈ ps.getLast? := by simp [Option.mem_def, h]
  rcases List.mem_getLast?_eq_getLast hx with ⟨hne, heq⟩
  rw [heq]
  exact List.getLast_mem hne

theorem findIndexById_last :
    ∀ ps : Session, ∀ q : PDFPageInfo, AllSome ps → ps.getLast? = some (some q) →
      (idsOf ps).Nodup → findIndexById ps q.id = .ok ((ps.length : Int) - 1) := by
  intro ps
  induction ps with
  | nil => intro q _ hl _; simp at hl
  | cons x rest ih =>
      intro q hall hl hnd
      rcases allSome_cons.mp hall with ⟨hx, hrest⟩
      match x, hx with
      | some p, _ =>
        match rest with
        | [] =>
            have : some p = some q := by simpa using hl
            have hq : p = q := by injection this
            subst hq
            simp [findIndexById]
        | y :: rest' =>
            have hl' : (y :: rest').getLast? = some (some q) := by
              rw [← hl]; exact (List.getLast?_cons_cons ..).symm
            have hmemq : some q ∈ (y :: rest' : Session) := mem_of_getLast?_sess hl'
            have hqid : q.id ∈ idsOf (y :: rest') := by
              exact List.mem_filterMap.mpr ⟨some q, hmemq, rfl⟩
            have hnd' : (idsOf (y :: rest')).Nodup ∧ p.id ∉ idsOf (y :: rest') := by
              have : idsOf (some p :: y :: rest') = p.id :: idsOf (y :: rest') := by
                simp [idsOf, List.filterMap_cons]
              rw [this] at hnd
              exact ⟨(List.nodup_cons.mp hnd).2, (List.nodup_cons.mp hnd).1⟩
            have hne : p.id ≠ q.id := fun h => hnd'.2 (h ▸ hqid)
            have hrec := ih q hrest hl' hnd'.1
            have hlen : ((y :: rest').length : Int) - 1 ≠ -1 := by
              simp only [List.length_cons]
              omega
            have hstep : findIndexById (some p :: y :: rest') q.id
                = (findIndexById (y :: rest') q.id).map (fun i => if i = -1 then -1 else i + 1) := by
              simp [findIndexById, hne]
            rw [hstep, hrec]
            simp only [Except.map, if_neg hlen]
            congr 1
            simp only [List.length_cons]
            push_cast
            ring

/-- C7: `movePage` on the first page with direction `up`, and on the last
page (under the session invariant of distinct page ids) with direction
`down`, are defined no-ops: the sequence is returned unchanged and no error
is raised. -/
theorem movePage_boundary_noop (ps : Session) (p q : PDFPageInfo)
    (hall : AllSome ps) (hh : ps.head? = some (some p)) (hl : ps.getLast? = some (some q))
    (hnd : (idsOf ps).Nodup) :
    movePage ps p.id MoveDir.up = .ok ps ∧ movePage ps q.id MoveDir.down = .ok ps := by
  constructor
  · match ps, hh with
    | some p' :: rest, hh =>
        have hp : p' = p := by
          have : some p' = some p := by simpa using hh
          injection this
        subst hp
        simp [movePage, findIndexById]
  · have hidx := findIndexById_last ps q hall hl hnd
    simp [movePage, hidx]

theorem movePage_boundary_noop_witness :
    movePage (loadState 2) 0 MoveDir.up = .ok (loadState 2) ∧
      movePage (loadState 2) 1 MoveDir.down = .ok (loadState 2) :=
  movePage_boundary_noop (loadState 2) ⟨0, 1, 0, true⟩ ⟨1, 2, 0, true⟩
    (by decide) (by decide) (by decide) (by decide)

theorem idAbsent_cons {x : JSItem} {l : Session} {pid : Int} :
    IdAbsent (x :: l) pid ↔ (∀ p, x = some p → p.id ≠ pid) ∧ IdAbsent l pid :=
  List.forall_mem_cons

theorem rotatePage_absent (pid : Int) (d : RotDir) :
    ∀ ps : Session, AllSome ps → IdAbsent ps pid → rotatePage ps pid d = .ok ps := by
  intro ps
  induction ps with
  | nil => intro _ _; rfl
  | cons x rest ih =>
      intro hall habs
      rcases allSome_cons.mp hall with ⟨hx, hrest⟩
      rcases idAbsent_cons.mp habs with ⟨hxa, hresta⟩
      match x, hx with
      | some p, _ =>
        simp [rotatePage, hxa p rfl, ih hrest hresta, Except.map]

theorem togglePageVisibility_absent (pid : Int) :
    ∀ ps : Session, AllSome ps → IdAbsent ps pid → togglePageVisibility ps pid = .ok ps := by
  intro ps
  induction ps with
  | nil => intro _ _; rfl
  | cons x rest ih =>
      intro hall habs
      rcases allSome_cons.mp hall with ⟨hx, hrest⟩
      rcases idAbsent_cons.mp habs with ⟨hxa, hresta⟩
      match x, hx with
      | some p, _ =>
        simp [togglePageVisibility, hxa p rfl, ih hrest hresta, Except.map]

theorem deletePage_absent (pid : Int) :
    ∀ ps : Session, AllSome ps → IdAbsent ps pid → deletePage ps pid = .ok ps := by
  intro ps
  induction ps with
  | nil => intro _ _; rfl
  | cons x rest ih =>
      intro hall habs
      rcases allSome_cons.mp hall with ⟨hx, hrest⟩
      rcases idAbsent_cons.mp habs with ⟨hxa, hresta⟩
      match x, hx with
      | some p, _ =>
        simp [deletePage, hxa p rfl, ih hrest hresta, Except.map]

/-- C9: on a well-formed session, `rotatePage`, `togglePageVisibility` and
`deletePage` with a `pageId` matching no record leave the page sequence
unchanged and raise no error (the lookup finds nothing / the filter drops
nothing). -/
theorem mutators_absent_id_noop (ps : Session) (pid : Int)
    (hall : AllSome ps) (habs : IdAbsent ps pid) :
    (∀ d, rotatePage ps pid d = .ok ps) ∧
      togglePageVisibility ps pid = .ok ps ∧ deletePage ps pid = .ok ps :=
  ⟨fun d => rotatePage_absent pid d ps hall habs,
    togglePageVisibility_absent pid ps hall habs,
    deletePage_absent pid ps hall habs⟩

theorem mutators_absent_id_noop_witness :
    (∀ d, rotatePage (loadState 2) 5 d = .ok (loadState 2)) ∧
      togglePageVisibility (loadState 2) 5 = .ok (loadState 2) ∧
      deletePage (loadState 2) 5 = .ok (loadState 2) :=
  mutators_absent_id_noop (loadState 2) 5 (by decide) (by decide)

/-- C10 (code bug): `movePage` with a `pageId` not in the session is a no-op
for direction `up`, but for direction `down` on a nonempty session the
unguarded `findIndex` result `-1` passes the `currentIndex < length - 1`
check and the destructuring swap writes `pages[-1] = pages[0]` (a stray
non-element property) and `pages[0] = undefined`, corrupting the page
sequence instead of leaving it unchanged. -/
theorem movePage_absent_id_down_corrupts :
    movePage (loadState 2) 5 MoveDir.down = .ok [none, some ⟨1, 2, 0, true⟩] ∧
      ([none, some ⟨1, 2, 0, true⟩] : Session) ≠ loadState 2 ∧
      movePage (loadState 2) 5 MoveDir.up = .ok (loadState 2) :=
  ⟨rfl, by decide, rfl⟩

theorem rotatePage_rotation_invariant_witness :
    AllSome (loadState 1) ∧ getRot (loadState 1) 0 = some 0 ∧
      ∃ ps', applyRots (loadState 1) 0 [RotDir.left] = .ok ps' ∧
        ∃ r, getRot ps' 0 = some r ∧ r ∈ rotSet ∧
          ∃ ps'', applyRots ps' 0 [RotDir.right, RotDir.right, RotDir.right, RotDir.right] = .ok ps'' ∧
            getRot ps'' 0 = some (fourRight r) ∧
            (fourRight r - r) % 360 = 0 ∧ (0 ≤ r → fourRight r = r) :=
  ⟨by decide, by decide,
    rotatePage_rotation_invariant (loadState 1) 0 [RotDir.left] (by decide) (by decide)⟩

end Org

/-! ### Theorems: compression engine -/

namespace Compressor

/-- C8: the content analyzer returns one strategy tag picked by the fixed
precedence chain: images together with complex graphics win, then embedded
fonts, then metadata presence, then page count above 10, and otherwise
`ultra_aggressive`; the first matching rule wins.  (In this code the image
and complex-graphics signals are both derived from the page loop and equal
`pageCount > 0`, so the later rules can only fire on zero-page documents.) -/
theorem analyzePDFContent_precedence (doc : PdfDoc) :
    ((TC.analyzePDFContent doc).hasImages = true ∧ (TC.analyzePDFContent doc).hasComplexGraphics = true →
        (TC.analyzePDFContent doc).recommendedStrategy = "image_optimization") ∧
    (¬((TC.analyzePDFContent doc).hasImages = true ∧ (TC.analyzePDFContent doc).hasComplexGraphics = true) →
        (TC.analyzePDFContent doc).hasEmbeddedFonts = true →
        (TC.analyzePDFContent doc).recommendedStrategy = "font_optimization") ∧
    (¬((TC.analyzePDFContent doc).hasImages = true ∧ (TC.analyzePDFContent doc).hasComplexGraphics = true) →
        (TC.analyzePDFContent doc).hasEmbeddedFonts = false →
        (TC.analyzePDFContent doc).hasMetadata = true →
        (TC.analyzePDFContent doc).recommendedStrategy = "metadata_removal") ∧
    (¬((TC.analyzePDFContent doc).hasImages = true ∧ (TC.analyzePDFContent doc).hasComplexGraphics = true) →
        (TC.analyzePDFContent doc).hasEmbeddedFonts = false →
        (TC.analyzePDFContent doc).hasMetadata = false →
        (TC.analyzePDFContent doc).pageCount > 10 →
        (TC.analyzePDFContent doc).recommendedStrategy = "multi_pass") ∧
    (¬((TC.analyzePDFContent doc).hasImages = true ∧ (TC.analyzePDFContent doc).hasComplexGraphics = true) →
        (TC.analyzePDFContent doc).hasEmbeddedFonts = false →
        (TC.analyzePDFContent doc).hasMetadata = false →
        ¬((TC.analyzePDFContent doc).pageCount > 10) →
        (TC.analyzePDFContent doc).recommendedStrategy = "ultra_aggressive") ∧
    (TC.analyzePDFContent doc).recommendedStrategy ∈
      ["image_optimization", "font_optimization", "metadata_removal", "multi_pass",
        "ultra_aggressive"] := by
  by_cases h1 : doc.pages.length > 0 <;>
    by_cases h2 : doc.formFieldCount > 0 <;>
      by_cases h3 : (jsTruthyStr doc.meta.title || jsTruthyStr doc.meta.author) = true <;>
        by_cases h4 : doc.pages.length > 10 <;>
          simp_all [TC.analyzePDFContent]

theorem analyzePDFContent_precedence_witness :
    (TC.analyzePDFContent { pages := [7], meta := {}, formFieldCount := 0 }).hasImages = true ∧
      (TC.analyzePDFContent { pages := [7], meta := {}, formFieldCount := 0 }).hasComplexGraphics = true ∧
      (TC.analyzePDFContent { pages := [7], meta := {}, formFieldCount := 0 }).recommendedStrategy =
        "image_optimization" :=
  ⟨rfl, rfl,
    (analyzePDFContent_precedence { pages := [7], meta := {}, formFieldCount := 0 }).1 ⟨rfl, rfl⟩⟩

/-- C4 counterexample: (a) in enhanced-pdf-compression.ts the sanitizer runs
only when `removeMetadata` is set — with quality `screen` alone the title
survives; (b) in test-compression.ts the reset timestamps are `new Date()`,
the clock value at the moment of the call, not a fixed sentinel: two runs
under different clocks store different timestamps. -/
theorem metadata_sanitizer_not_fixed_sentinel :
    (EPC.applyOptimizations
        { load := fun _ _ => .ok ⟨[], {}, 0⟩, save := fun _ _ => .ok [],
          embedFontHelvetica := fun d => .ok d, now := 0, fmtMB := fun _ => "" }
        ⟨[], { title := some "Secret" }, 0⟩
        { quality := some Quality.screen } 1 1).1.meta.title = some "Secret" ∧
    (TC.applyOptimizations
        { load := fun _ _ => .ok ⟨[], {}, 0⟩, save := fun _ _ => .ok [],
          embedFontHelvetica := fun d => .ok d, now := 0, fmtMB := fun _ => "" }
        ⟨[], { title := some "Secret" }, 0⟩
        { quality := some Quality.screen } 1 1).1.meta.creationDate = some 0 ∧
    (TC.applyOptimizations
        { load := fun _ _ => .ok ⟨[], {}, 0⟩, save := fun _ _ => .ok [],
          embedFontHelvetica := fun d => .ok d, now := 1, fmtMB := fun _ => "" }
        ⟨[], { title := some "Secret" }, 0⟩
        { quality := some Quality.screen } 1 1).1.meta.creationDate = some 1 :=
  ⟨rfl, rfl, rfl⟩

/-- C4 (amended): in the test-compression compressor, whenever
`removeMetadata` is set or the tier is `screen`, the sanitizer clears
title/author/subject/keywords/creator/producer to empty values and sets both
timestamps to the current time of the call (not a fixed sentinel), logging
one entry; in the enhanced-pdf-compression compressor the same clearing
happens only when `removeMetadata` is set (the tier alone does not trigger
it).  In both, the sanitizer is total — absence of metadata fields is a
no-op, never an error (the theorem quantifies over every document, including
ones with all metadata fields absent). -/
theorem applyOptimizations_metadata_sanitizer (env : PdfLibEnv) (doc : PdfDoc)
    (options : PDFCompressionOptions) (fileSizeMB : ℚ) (pageCount : Nat)
    (h : Truthy options.removeMetadata = true ∨ options.quality = some Quality.screen) :
    ((TC.applyOptimizations env doc options fileSizeMB pageCount).1.meta =
        clearMetadata env.now doc.meta ∧
      "Metadata removed" ∈ (TC.applyOptimizations env doc options fileSizeMB pageCount).2) ∧
    (Truthy options.removeMetadata = true →
      (EPC.applyOptimizations env doc options fileSizeMB pageCount).1.meta =
          clearMetadata env.now doc.meta ∧
        "Metadata removed" ∈ (EPC.applyOptimizations env doc options fileSizeMB pageCount).2) ∧
    (clearMetadata env.now doc.meta).title = some "" ∧
    (clearMetadata env.now doc.meta).author = some "" ∧
    (clearMetadata env.now doc.meta).subject = some "" ∧
    (clearMetadata env.now doc.meta).keywords = some [] ∧
    (clearMetadata env.now doc.meta).creator = some "" ∧
    (clearMetadata env.now doc.meta).producer = some "" ∧
    (clearMetadata env.now doc.meta).creationDate = some env.now ∧
    (clearMetadata env.now doc.meta).modificationDate = some env.now := by
  have hcond : (Truthy options.removeMetadata || options.quality = some Quality.screen) = true := by
    rcases h with h | h <;> simp [h]
  refine ⟨?_, ?_, rfl, rfl, rfl, rfl, rfl, rfl, rfl, rfl⟩
  · constructor
    · simp [TC.applyOptimizations, hcond]
    · simp [TC.applyOptimizations, hcond]
  · intro hrm
    constructor
    · simp [EPC.applyOptimizations, hrm]
    · simp [EPC.applyOptimizations, hrm]

theorem applyOptimizations_metadata_sanitizer_witness :
    (TC.applyOptimizations
        { load := fun _ _ => .ok ⟨[], {}, 0⟩, save := fun _ _ => .ok [],
          embedFontHelvetica := fun d => .ok d, now := 7, fmtMB := fun _ => "" }
        ⟨[], {}, 0⟩ { removeMetadata := some true } 1 1).1.meta =
      clearMetadata 7 ({} : PdfMeta) ∧
    (EPC.applyOptimizations
        { load := fun _ _ => .ok ⟨[], {}, 0⟩, save := fun _ _ => .ok [],
          embedFontHelvetica := fun d => .ok d, now := 7, fmtMB := fun _ => "" }
        ⟨[], {}, 0⟩ { removeMetadata := some true } 1 1).1.meta =
      clearMetadata 7 ({} : PdfMeta) := by
  have h := applyOptimizations_metadata_sanitizer
    { load := fun _ _ => .ok ⟨[], {}, 0⟩, save := fun _ _ => .ok [],
      embedFontHelvetica := fun d => .ok d, now := 7, fmtMB := fun _ => "" }
    ⟨[], {}, 0⟩ { removeMetadata := some true } 1 1 (Or.inl rfl)
  exact ⟨h.1.1, (h.2.1 rfl).1⟩

/-- C6: when the document model adapter rejects the input as
password-protected — modelled, per spec sections 4.1 and 7, as `load`
failing with an error whose message names the password protection and is not
a corrupt-format message — both compressors propagate a dedicated
`'Password-protected PDFs are not supported'` failure, distinct from the
`FormatError` message, and return no `CompressionResult`. -/
theorem compressPDF_encrypted_distinct_error (env : PdfLibEnv) (file : FileModel)
    (options : PDFCompressionOptions) (e : JsErr)
    (h0 : fileSizeOf file ≠ 0) (h1 : file.ftype = "application/pdf")
    (h2 : fileSizeOf file ≤ 100 * 1024 * 1024)
    (hload : env.load file.bytes loadOptsCompress = .error e)
    (hpwd : containsSub e.msg "password" = true)
    (hfmt : containsSub e.msg "Invalid PDF" = false) :
    TC.compressPDF env file options = .error ⟨"Password-protected PDFs are not supported"⟩ ∧
    EPC.compressPDF env file options = .error ⟨"Password-protected PDFs are not supported"⟩ ∧
    ("Password-protected PDFs are not supported" : String) ≠
      "The file appears to be corrupted or not a valid PDF" := by
  have h2' : ¬ (fileSizeOf file > 100 * 1024 * 1024) := by omega
  refine ⟨?_, ?_, by decide⟩
  · simp [TC.compressPDF, TC.compressPDFTry, TC.strategyPhase, h0, h1, h2', hload, hpwd, hfmt]
  · simp [EPC.compressPDF, EPC.compressPDFTry, EPC.strategyPhase, h0, h1, h2', hload, hpwd, hfmt]

theorem compressPDF_encrypted_distinct_error_witness :
    TC.compressPDF
        { load := fun _ _ => .error ⟨"encrypted input: password required"⟩,
          save := fun _ _ => .ok [], embedFontHelvetica := fun d => .ok d,
          now := 0, fmtMB := fun _ => "" }
        { name := "a.pdf", ftype := "application/pdf", bytes := [1] } {} =
      .error ⟨"Password-protected PDFs are not supported"⟩ ∧
    EPC.compressPDF
        { load := fun _ _ => .error ⟨"encrypted input: password required"⟩,
          save := fun _ _ => .ok [], embedFontHelvetica := fun d => .ok d,
          now := 0, fmtMB := fun _ => "" }
        { name := "a.pdf", ftype := "application/pdf", bytes := [1] } {} =
      .error ⟨"Password-protected PDFs are not supported"⟩ := by
  have h := compressPDF_encrypted_distinct_error
    { load := fun _ _ => .error ⟨"encrypted input: password required"⟩,
      save := fun _ _ => .ok [], embedFontHelvetica := fun d => .ok d,
      now := 0, fmtMB := fun _ => "" }
    { name := "a.pdf", ftype := "application/pdf", bytes := [1] } {}
    ⟨"encrypted input: password required"⟩
    (by decide) rfl (by decide) rfl (by decide) (by decide)
  exact ⟨h.1, h.2.1⟩

theorem pickStep_none_right (best : Option Bytes) : pickStep best none = best := by
  cases best <;> rfl

theorem pickStep_none_left (o : Option Bytes) : pickStep none o = o := by
  cases o <;> rfl

theorem pickStep_some_some (b c : Bytes) :
    pickStep (some b) (some c) = if c.length < b.length then some c else some b := rfl

theorem pickStep_le_left (o : Option Bytes) (a : Bytes) :
    ∃ x, pickStep (some a) o = some x ∧ x.length ≤ a.length := by
  cases o with
  | none => exact ⟨a, rfl, le_refl _⟩
  | some c =>
      by_cases hlt : c.length < a.length
      · exact ⟨c, by simp [pickStep_some_some, hlt], by omega⟩
      · exact ⟨a, by simp [pickStep_some_some, hlt], le_refl _⟩

theorem pickStep_le_right (acc : Option Bytes) (c : Bytes) :
    ∃ x, pickStep acc (some c) = some x ∧ x.length ≤ c.length := by
  cases acc with
  | none => exact ⟨c, rfl, le_refl _⟩
  | some a =>
      by_cases hlt : c.length < a.length
      · exact ⟨c, by simp [pickStep_some_some, hlt], le_refl _⟩
      · exact ⟨a, by simp [pickStep_some_some, hlt], by omega⟩

theorem foldl_pickStep_spec :
    ∀ (offers : List (Option Bytes)) (acc : Option Bytes) (b : Bytes),
      offers.foldl pickStep acc = some b →
      (∃ i, offers.get? i = some (some b) ∧
          (∀ c, some c ∈ offers → b.length ≤ c.length) ∧
          (∀ a, acc = some a → b.length < a.length) ∧
          (∀ j c, j < i → offers.get? j = some (some c) → b.length < c.length)) ∨
        (acc = some b ∧ ∀ c, some c ∈ offers → b.length ≤ c.length) := by
  intro offers
  induction offers with
  | nil => intro acc b h; exact Or.inr ⟨h, by simp⟩
  | cons o rest ih =>
      intro acc b h
      have h' : rest.foldl pickStep (pickStep acc o) = some b := h
      rcases ih (pickStep acc o) b h' with ⟨i, hi, hmin, haccl, hbef⟩ | ⟨hacc, hmin⟩
      · refine Or.inl ⟨i + 1, by simpa using hi, ?_, ?_, ?_⟩
        · intro c hc
          rcases List.mem_cons.mp hc with hc | hc
          · rcases pickStep_le_right acc c with ⟨x, hx, hxc⟩
            have hb := haccl x (by rw [hc] at hx; exact hx)
            omega
          · exact hmin c hc
        · intro a ha
          subst ha
          rcases pickStep_le_left o a with ⟨x, hx, hxa⟩
          have hb := haccl x hx
          omega
        · intro j c hj hjc
          cases j with
          | zero =>
              have hoc : o = some c := by simpa using hjc
              rcases pickStep_le_right acc c with ⟨x, hx, hxc⟩
              have hb := haccl x (by rw [hoc]; exact hx)
              omega
          | succ j' =>
              exact hbef j' c (by omega) (by simpa using hjc)
      · cases o with
        | none =>
            refine Or.inr ⟨by simpa [pickStep_none_right] using hacc, ?_⟩
            intro c hc
            rcases List.mem_cons.mp hc with hc | hc
            · exact absurd hc (by simp)
            · exact hmin c hc
        | some c =>
            cases acc with
            | none =>
                have hbc : c = b := by simpa [pickStep_none_left] using hacc
                subst hbc
                refine Or.inl ⟨0, by simp, ?_, by simp, ?_⟩
                · intro c' hc'
                  rcases List.mem_cons.mp hc' with hc' | hc'
                  · have : c' = c := by injection hc'
                    subst this
                    exact le_refl _
                  · exact hmin c' hc'
                · intro j c' hj
                  omega
            | some a =>
                by_cases hlt : c.length < a.length
                · have hbc : c = b := by simpa [pickStep_some_some, hlt] using hacc
                  subst hbc
                  refine Or.inl ⟨0, by simp, ?_, ?_, ?_⟩
                  · intro c' hc'
                    rcases List.mem_cons.mp hc' with hc' | hc'
                    · have : c' = c := by injection hc'
                      subst this
                      exact le_refl _
                    · exact hmin c' hc'
                  · intro a' ha'
                    have heq : a = a' := by injection ha'
                    subst heq
                    omega
                  · intro j c' hj
                    omega
                · have hba : a = b := by simpa [pickStep_some_some, hlt] using hacc
                  subst hba
                  refine Or.inr ⟨rfl, ?_⟩
                  intro c' hc'
                  rcases List.mem_cons.mp hc' with hc' | hc'
                  · have : c' = c := by injection hc'
                    subst this
                    omega
                  · exact hmin c' hc'

theorem foldl_pickStep_eq_none :
    ∀ (offers : List (Option Bytes)) (acc : Option Bytes),
      offers.foldl pickStep acc = none → acc = none ∧ ∀ o ∈ offers, o = none := by
  intro offers
  induction offers with
  | nil => intro acc h; exact ⟨h, by simp⟩
  | cons o rest ih =>
      intro acc h
      rcases ih (pickStep acc o) h with ⟨hacc, hrest⟩
      have hsplit : acc = none ∧ o = none := by
        cases acc with
        | none =>
            cases o with
            | none => exact ⟨rfl, rfl⟩
            | some c => simp [pickStep_none_left] at hacc
        | some a =>
            cases o with
            | none => simp [pickStep_none_right] at hacc
            | some c =>
                rw [pickStep_some_some] at hacc
                split_ifs at hacc
      refine ⟨hsplit.1, ?_⟩
      intro x hx
      rcases List.mem_cons.mp hx with hx | hx
      · exact hx ▸ hsplit.2
      · exact hrest x hx

theorem TC_consider_fst (st : Option Bytes × List String) (cand : Except JsErr Bytes)
    (line : String) : (TC.consider st cand line).1 = pickStep st.1 cand.toOption := by
  cases cand with
  | error e => simp [TC.consider, Except.toOption, pickStep_none_right]
  | ok b =>
      cases h : st.1 with
      | none => simp [TC.consider, Except.toOption, TC.ltBest, h, pickStep_none_left]
      | some a =>
          by_cases hlt : b.length < a.length <;>
            simp [TC.consider, Except.toOption, TC.ltBest, h, pickStep_some_some, hlt]

theorem TC_considerOpt_fst (st : Option Bytes × List String) (cand : Option Bytes)
    (line : String) : (TC.considerOpt st cand line).1 = pickStep st.1 cand := by
  cases cand with
  | none => simp [TC.considerOpt, pickStep_none_right]
  | some b =>
      cases h : st.1 with
      | none => simp [TC.considerOpt, TC.ltBest, h, pickStep_none_left]
      | some a =>
          by_cases hlt : b.length < a.length <;>
            simp [TC.considerOpt, TC.ltBest, h, pickStep_some_some, hlt]

theorem TC_ultraState_fst (env : PdfLibEnv) (doc : PdfDoc) (log : List String) :
    (TC.ultraState env doc log).1 = pickBest (TC.ultraOffers env doc) := by
  simp only [TC.ultraState, TC.ultraOffers, TC.strategy2Offer, pickBest, List.foldl,
    TC_consider_fst, TC_considerOpt_fst, pickStep_none_left]

theorem TC_exists_pickBest_some (env : PdfLibEnv) (doc : PdfDoc)
    (h : TC.ultraCandidates env doc ≠ []) :
    ∃ b, pickBest (TC.ultraOffers env doc) = some b := by
  cases hpb : pickBest (TC.ultraOffers env doc) with
  | some b => exact ⟨b, rfl⟩
  | none =>
      exfalso
      rcases foldl_pickStep_eq_none (TC.ultraOffers env doc) none hpb with ⟨-, hall⟩
      apply h
      have h1 : (env.save (recreateDoc env.now doc) TC.ultraOpts).toOption = none :=
        hall _ (by simp [TC.ultraOffers])
      have h2 : TC.strategy2Offer env doc = none :=
        hall _ (by simp [TC.ultraOffers])
      have h4 : (env.save (TC.strategy4Doc env doc) TC.ultraOpts).toOption = none :=
        hall _ (by simp [TC.ultraOffers])
      simp [TC.ultraCandidates, TC.ultraOffers, h1, h2, h4, List.reduceOption]

/-- C5: when at least one ultra-aggressive strategy produced a candidate, the
runner returns a successful result whose byte buffer is one of the offered
candidates, no larger than every offered candidate, and strictly smaller than
every candidate offered by an earlier strategy — so on ties the
first-produced (most conservative) candidate is the one kept. -/
theorem applyUltra_smallest_first (env : PdfLibEnv) (doc : PdfDoc) (log : List String)
    (h : TC.ultraCandidates env doc ≠ []) :
    ∃ b logOut, TC.applyUltraAggressiveCompression env doc log = .ok (b, logOut) ∧
      ∃ i, (TC.ultraOffers env doc).get? i = some (some b) ∧
        (∀ c, some c ∈ TC.ultraOffers env doc → b.length ≤ c.length) ∧
        (∀ j c, j < i → (TC.ultraOffers env doc).get? j = some (some c) →
          b.length < c.length) := by
  rcases TC_exists_pickBest_some env doc h with ⟨b, hpb⟩
  rcases hst : TC.ultraState env doc log with ⟨ofst, snd⟩
  have hofst : ofst = some b := by
    have hfst := TC_ultraState_fst env doc log
    rw [hst] at hfst
    rw [← hpb, ← hfst]
  subst hofst
  have happ : TC.applyUltraAggressiveCompression env doc log = .ok (b, snd) := by
    rw [TC.applyUltraAggressiveCompression, hst]
  have hfold : (TC.ultraOffers env doc).foldl pickStep none = some b := hpb
  rcases foldl_pickStep_spec (TC.ultraOffers env doc) none b hfold with
    ⟨i, hi, hmin, -, hbef⟩ | ⟨habs, -⟩
  · exact ⟨b, snd, happ, i, hi, hmin, hbef⟩
  · exact absurd habs (by simp)

theorem applyUltra_smallest_first_witness :
    TC.ultraCandidates
        { load := fun _ _ => .ok ⟨[], {}, 0⟩, save := fun _ _ => .ok [0],
          embedFontHelvetica := fun d => .ok d, now := 0, fmtMB := fun _ => "" }
        ⟨[], {}, 0⟩ ≠ [] ∧
      (∃ b logOut, TC.applyUltraAggressiveCompression
          { load := fun _ _ => .ok ⟨[], {}, 0⟩, save := fun _ _ => .ok [0],
            embedFontHelvetica := fun d => .ok d, now := 0, fmtMB := fun _ => "" }
          ⟨[], {}, 0⟩ [] = .ok (b, logOut) ∧
        ∃ i, (TC.ultraOffers
            { load := fun _ _ => .ok ⟨[], {}, 0⟩, save := fun _ _ => .ok [0],
              embedFontHelvetica := fun d => .ok d, now := 0, fmtMB := fun _ => "" }
            ⟨[], {}, 0⟩).get? i = some (some b) ∧
          (∀ c, some c ∈ TC.ultraOffers
              { load := fun _ _ => .ok ⟨[], {}, 0⟩, save := fun _ _ => .ok [0],
                embedFontHelvetica := fun d => .ok d, now := 0, fmtMB := fun _ => "" }
              ⟨[], {}, 0⟩ → b.length ≤ c.length) ∧
          (∀ j c, j < i → (TC.ultraOffers
              { load := fun _ _ => .ok ⟨[], {}, 0⟩, save := fun _ _ => .ok [0],
                embedFontHelvetica := fun d => .ok d, now := 0, fmtMB := fun _ => "" }
              ⟨[], {}, 0⟩).get? j = some (some c) → b.length < c.length)) :=
  ⟨by decide,
    applyUltra_smallest_first
      { load := fun _ _ => .ok ⟨[], {}, 0⟩, save := fun _ _ => .ok [0],
        embedFontHelvetica := fun d => .ok d, now := 0, fmtMB := fun _ => "" }
      ⟨[], {}, 0⟩ [] (by decide)⟩

theorem TC_compressPDFTry_ok_sizes {env : PdfLibEnv} {file : FileModel}
    {options : PDFCompressionOptions} {res : PDFCompressionResult}
    (h : TC.compressPDFTry env file options = .ok res) :
    res.compressedSize ≤ fileSizeOf file ∧ res.originalSize = fileSizeOf file := by
  rw [TC.compressPDFTry] at h
  cases hsp : TC.strategyPhase env file options with
  | error e => rw [hsp] at h; exact absurd h (by simp)
  | ok bl =>
      obtain ⟨b, l⟩ := bl
      rw [hsp] at h
      by_cases hge : b.length ≥ fileSizeOf file
      · simp only [hge, if_pos] at h
        cases h
        exact ⟨le_refl _, rfl⟩
      · simp only [hge, if_neg, if_false] at h
        cases h
        refine ⟨?_, rfl⟩
        show b.length ≤ fileSizeOf file
        omega

theorem TC_compressPDF_ok_sizes {env : PdfLibEnv} {file : FileModel}
    {options : PDFCompressionOptions} {res : PDFCompressionResult}
    (h : TC.compressPDF env file options = .ok res) :
    res.compressedSize ≤ res.originalSize ∧ res.originalSize = fileSizeOf file := by
  rw [TC.compressPDF] at h
  split_ifs at h
  cases htry : TC.compressPDFTry env file options with
  | ok r =>
      rw [htry] at h
      cases h
      rcases TC_compressPDFTry_ok_sizes htry with ⟨h1, h2⟩
      exact ⟨by omega, h2⟩
  | error e =>
      rw [htry] at h
      have h' : (if containsSub e.msg "Invalid PDF" = true then
            (Except.error ⟨"The file appears to be corrupted or not a valid PDF"⟩ :
              Except JsErr PDFCompressionResult)
          else if containsSub e.msg "password" = true then
            Except.error ⟨"Password-protected PDFs are not supported"⟩
          else .ok (TC.fallbackResult file options)) = .ok res := h
      split_ifs at h'
      cases h'
      exact ⟨le_refl _, rfl⟩

theorem EPC_compressPDFTry_ok_sizes {env : PdfLibEnv} {file : FileModel}
    {options : PDFCompressionOptions} {res : PDFCompressionResult}
    (h : EPC.compressPDFTry env file options = .ok res) :
    res.compressedSize ≤ fileSizeOf file ∧ res.originalSize = fileSizeOf file := by
  rw [EPC.compressPDFTry] at h
  cases hsp : EPC.strategyPhase env file options with
  | error e => rw [hsp] at h; exact absurd h (by simp)
  | ok bl =>
      obtain ⟨b, l⟩ := bl
      rw [hsp] at h
      by_cases hge : b.length ≥ fileSizeOf file
      · simp only [hge, if_pos] at h
        cases h
        exact ⟨le_refl _, rfl⟩
      · simp only [hge, if_neg, if_false] at h
        cases h
        refine ⟨?_, rfl⟩
        show b.length ≤ fileSizeOf file
        omega

theorem EPC_compressPDF_ok_sizes {env : PdfLibEnv} {file : FileModel}
    {options : PDFCompressionOptions} {res : PDFCompressionResult}
    (h : EPC.compressPDF env file options = .ok res) :
    res.compressedSize ≤ res.originalSize ∧ res.originalSize = fileSizeOf file := by
  rw [EPC.compressPDF] at h
  split_ifs at h
  cases htry : EPC.compressPDFTry env file options with
  | ok r =>
      rw [htry] at h
      cases h
      rcases EPC_compressPDFTry_ok_sizes htry with ⟨h1, h2⟩
      exact ⟨by omega, h2⟩
  | error e =>
      rw [htry] at h
      have h' : (if containsSub e.msg "Invalid PDF" = true then
            (Except.error ⟨"The file appears to be corrupted or not a valid PDF"⟩ :
              Except JsErr PDFCompressionResult)
          else if containsSub e.msg "password" = true then
            Except.error ⟨"Password-protected PDFs are not supported"⟩
          else .ok (EPC.fallbackResult file options)) = .ok res := h
      split_ifs at h'
      cases h'
      exact ⟨le_refl _, rfl⟩

/-- C1: in both compressors every returned result satisfies
`compressedSize ≤ originalSize` (with `originalSize = file.size`); and
whenever the strategy phase produced a candidate at least as large as the
input, the safety gate of `compressPDF` returns the original bytes with a
zero ratio and the single log entry stating that no reduction was
achieved. -/
theorem compressPDF_safety_gate (env : PdfLibEnv) (file : FileModel)
    (options : PDFCompressionOptions) :
    (∀ res, TC.compressPDF env file options = .ok res →
        res.compressedSize ≤ res.originalSize ∧ res.originalSize = fileSizeOf file) ∧
    (∀ res, EPC.compressPDF env file options = .ok res →
        res.compressedSize ≤ res.originalSize ∧ res.originalSize = fileSizeOf file) ∧
    (∀ b log, fileSizeOf file ≠ 0 → file.ftype = "application/pdf" →
        fileSizeOf file ≤ 100 * 1024 * 1024 →
        TC.strategyPhase env file options = .ok (b, log) → b.length ≥ fileSizeOf file →
        TC.compressPDF env file options = .ok (TC.gateResult file options) ∧
          (TC.gateResult file options).compressedBlob = file.bytes ∧
          (TC.gateResult file options).compressionRatio = 0 ∧
          (TC.gateResult file options).optimizations =
            ["No compression applied - file size increased"]) ∧
    (∀ b log, fileSizeOf file ≠ 0 → file.ftype = "application/pdf" →
        fileSizeOf file ≤ 100 * 1024 * 1024 →
        EPC.strategyPhase env file options = .ok (b, log) → b.length ≥ fileSizeOf file →
        EPC.compressPDF env file options = .ok (EPC.gateResult file options) ∧
          (EPC.gateResult file options).compressedBlob = file.bytes ∧
          (EPC.gateResult file options).compressionRatio = 0 ∧
          (EPC.gateResult file options).optimizations =
            ["No compression applied - file size increased"]) := by
  refine ⟨fun res h => TC_compressPDF_ok_sizes h, fun res h => EPC_compressPDF_ok_sizes h,
    ?_, ?_⟩
  · intro b log h0 h1 h2 hsp hge
    have h2' : ¬ (fileSizeOf file > 100 * 1024 * 1024) := by omega
    refine ⟨?_, rfl, rfl, rfl⟩
    have htry : TC.compressPDFTry env file options = .ok (TC.gateResult file options) := by
      rw [TC.compressPDFTry, hsp]
      simp [hge]
    simp [TC.compressPDF, h0, h1, h2', htry]
  · intro b log h0 h1 h2 hsp hge
    have h2' : ¬ (fileSizeOf file > 100 * 1024 * 1024) := by omega
    refine ⟨?_, rfl, rfl, rfl⟩
    have htry : EPC.compressPDFTry env file options = .ok (EPC.gateResult file options) := by
      rw [EPC.compressPDFTry, hsp]
      simp [hge]
    simp [EPC.compressPDF, h0, h1, h2', htry]

theorem compressPDF_safety_gate_witness :
    TC.compressPDF
        { load := fun _ _ => .ok ⟨[], {}, 0⟩, save := fun _ _ => .ok [0],
          embedFontHelvetica := fun d => .ok d, now := 0, fmtMB := fun _ => "0.0" }
        { name := "a.pdf", ftype := "application/pdf", bytes := [1] } {} =
      .ok (TC.gateResult { name := "a.pdf", ftype := "application/pdf", bytes := [1] } {}) ∧
    (TC.gateResult { name := "a.pdf", ftype := "application/pdf", bytes := [1] } {}).compressedBlob
      = [1] ∧
    (TC.gateResult { name := "a.pdf", ftype := "application/pdf", bytes := [1] } {}).compressionRatio
      = 0 := by
  have h := (compressPDF_safety_gate
    { load := fun _ _ => .ok ⟨[], {}, 0⟩, save := fun _ _ => .ok [0],
      embedFontHelvetica := fun d => .ok d, now := 0, fmtMB := fun _ => "0.0" }
    { name := "a.pdf", ftype := "application/pdf", bytes := [1] } {}).2.2.1
    [0] ["0 pages processed", "0.0 MB input file",
      "Content analysis: ultra_aggressive strategy recommended"]
    (by decide) rfl (by decide) rfl (by decide)
  exact ⟨h.1, h.2.1, h.2.2.1⟩

end Compressor

end ImgPdfVid
